import Mathlib

/-!
Verification of the freelaw sample-selection pipeline
(`scripts/find_sample_data.py` and `data-analysis/create_sample_data.py`)
against its specification.

The Python scripts are shallowly embedded: JSON case records become
structures with optional fields (mirroring `dict.get` access), the
imperative counting/selection loops become folds or structural
recursions, and logging becomes an explicit list of messages.
-/

namespace Freelaw

/-- One `recap_documents` element of a docket entry.  Fields are optional
because the Python code reads them with `doc.get(...)`. -/
structure RecapDocument where
  is_available : Option Bool
  filepath_local : Option String
deriving DecidableEq, Repr

/-- One element of `docket_entries`.  The `recap_documents` key may be
absent (`'recap_documents' in entry` / `entry.get('recap_documents', [])`). -/
structure DocketEntry where
  recap_documents : Option (List RecapDocument)
deriving DecidableEq, Repr

/-- A parsed case-record JSON document, restricted to the keys the
scripts read (all via `data.get`). -/
structure CaseRecord where
  id : Option Int
  case_name : Option String
  case_name_short : Option String
  court : Option String
  date_filed : Option String
  date_terminated : Option String
  pacer_case_id : Option String
  docket_entries : Option (List DocketEntry)
deriving DecidableEq, Repr

/-- Python truthiness of `doc.get('is_available')` (a missing key is
`None`, hence falsy). -/
def truthyBool : Option Bool → Bool
  | some b => b
  | none => false

/-- Python truthiness of `doc.get('filepath_local')`: a string is truthy
iff non-empty; a missing key (`None`) is falsy. -/
def truthyStr : Option String → Bool
  | some s => s != ""
  | none => false

/-- The test on line 31 of `find_sample_data.py`:
`doc.get('is_available') and doc.get('filepath_local')`. -/
def docCounted (doc : RecapDocument) : Bool :=
  truthyBool doc.is_available && truthyStr doc.filepath_local

/-- The counting loop of `analyze_json_file` (lines 22-32): walk
`docket_entries`, and inside each entry with a `recap_documents` key walk
its documents, incrementing `total_docs` always and `available_docs`
when `docCounted` holds.  Returns `(total_docs, available_docs)`. -/
def countDocsLoop (data : CaseRecord) : Nat × Nat :=
  match data.docket_entries with
  | none => (0, 0)
  | some entries =>
    entries.foldl (fun acc entry =>
      match entry.recap_documents with
      | none => acc
      | some docs =>
        docs.foldl (fun acc2 doc =>
          (acc2.1 + 1, if docCounted doc then acc2.2 + 1 else acc2.2)) acc) (0, 0)

/-- All recap documents of a record, in traversal order (spec-side view
of the nested iteration). -/
def allRecapDocsAux : List DocketEntry → List RecapDocument
  | [] => []
  | e :: rest => e.recap_documents.getD [] ++ allRecapDocsAux rest

/-- All recap documents of a record. -/
def allRecapDocs (data : CaseRecord) : List RecapDocument :=
  allRecapDocsAux (data.docket_entries.getD [])

/-- An input file as the script sees it: its path, its on-disk size
(`filepath.stat().st_size`), and the outcome of `json.load` (reading or
parsing may raise, carrying an error message). -/
structure InputFile where
  path : String
  size : Nat
  parsed : Except String CaseRecord
deriving Repr

/-- The flat summary dict built by `analyze_json_file` (lines 34-46). -/
structure CaseSummary where
  id : Option Int
  case_name : String
  case_name_short : String
  court : String
  date_filed : Option String
  date_terminated : Option String
  file_size : Nat
  total_docs : Nat
  available_docs : Nat
  pacer_case_id : Option String
  filepath : String
deriving DecidableEq, Repr

/-- `analyze_json_file` (lines 16-49): on success returns the summary
and no log output; any raised error is caught and turned into a log
message naming the path, with `None` returned. -/
def analyze_json_file (file : InputFile) : Option CaseSummary × List String :=
  match file.parsed with
  | .error e => (none, ["Error analyzing " ++ file.path ++ ": " ++ e])
  | .ok data =>
    let counts := countDocsLoop data
    (some {
      id := data.id
      case_name := data.case_name.getD "Unknown"
      case_name_short := data.case_name_short.getD "Unknown"
      court := data.court.getD "Unknown"
      date_filed := data.date_filed
      date_terminated := data.date_terminated
      file_size := file.size
      total_docs := counts.1
      available_docs := counts.2
      pacer_case_id := data.pacer_case_id
      filepath := file.path }, [])

/-- The analysis loop of `find_good_samples` (lines 60-66): analyze each
file, append the result when it is not `None`. -/
def analyzeFiles (files : List InputFile) : List CaseSummary :=
  files.foldl (fun acc f =>
    match (analyze_json_file f).1 with
    | some r => acc ++ [r]
    | none => acc) []

/-- The filter criteria of `find_good_samples` (lines 69-75). -/
def eligible (c : CaseSummary) : Bool :=
  decide (5 ≤ c.available_docs) && decide (c.available_docs ≤ 50) &&
    decide (100000 ≤ c.file_size) && decide (c.file_size ≤ 1000000)

/-- `good_samples.sort(key=lambda x: x['available_docs'], reverse=True)`:
a stable descending sort on `available_docs`. -/
def rankSamples (good : List CaseSummary) : List CaseSummary :=
  good.mergeSort (fun a b => decide (b.available_docs ≤ a.available_docs))

/-- First pass of `find_good_samples` (lines 86-90): walk the ranked
list, selecting a case when its court is unseen and the selection is
below the target count; `courts_seen` accumulates the chosen courts. -/
def diversifyPass (N : Nat) : List CaseSummary → List CaseSummary → List String → List CaseSummary
  | [], sel, _ => sel
  | c :: rest, sel, courts =>
    if c.court ∉ courts ∧ sel.length < N then
      diversifyPass N rest (sel ++ [c]) (c.court :: courts)
    else
      diversifyPass N rest sel courts

/-- Second pass of `find_good_samples` (lines 92-95): walk the ranked
list again, appending any case not already in the selection (Python's
`case not in selected`, i.e. structural equality on the dicts) while the
selection is below the target count. -/
def fillPass (N : Nat) : List CaseSummary → List CaseSummary → List CaseSummary
  | [], sel => sel
  | c :: rest, sel =>
    if c ∉ sel ∧ sel.length < N then fillPass N rest (sel ++ [c])
    else fillPass N rest sel

/-- The selection stage of `find_good_samples` (lines 79-97): rank the
eligible pool, run the diversify pass then the fill pass, truncate to
the target count. -/
def selectSamples (N : Nat) (good : List CaseSummary) : List CaseSummary :=
  let ranked := rankSamples good
  (fillPass N ranked (diversifyPass N ranked [] [])).take N

/-- `find_good_samples` on an already-listed batch of files (lines
60-97): analyze, filter, rank, diversify, fill, truncate. -/
def find_good_samples (N : Nat) (files : List InputFile) : List CaseSummary :=
  selectSamples N ((analyzeFiles files).filter eligible)

/-- The id-file writer loop of `main` (lines 124-126): one line
`f"{case['id']}"` per selected case, in order. -/
def sampleIdsLines (samples : List CaseSummary) : List String :=
  samples.foldl (fun acc c => acc ++ [reprId c.id]) []
where
  /-- Python `str` of the `id` value: `None` for a missing id, decimal
  rendering for an integer. -/
  reprId : Option Int → String
    | some n => toString n
    | none => "None"

/-- The `id` fields of the JSON array written to
`selected_samples.json` (line 118 dumps `samples` as-is), in order. -/
def jsonIds (samples : List CaseSummary) : List (Option Int) :=
  samples.map (·.id)

/-- Number of distinct court codes in a pool of summaries. -/
def distinctCourts (l : List CaseSummary) : Nat :=
  ((l.map (·.court)).dedup).length

/-! The materializer, `data-analysis/create_sample_data.py`. -/

/-- `pdf_dirs.add(d)` on a Python `set`, modelled as an
insertion-ordered duplicate-free list. -/
def insertDir (dirs : List String) (d : String) : List String :=
  if d ∈ dirs then dirs else dirs ++ [d]

/-- The per-document branch of `create_sample_data` (lines 54-61): an
available document with a truthy local path contributes the second
segment of its path when the path starts with `recap/` and splits on
`/` into at least 3 parts; otherwise it contributes nothing. -/
def docContrib (doc : RecapDocument) : Option String :=
  if truthyBool doc.is_available && truthyStr doc.filepath_local then
    let pdf_path := doc.filepath_local.getD ""
    if pdf_path.startsWith "recap/" then
      let parts := pdf_path.splitOn "/"
      if 3 ≤ parts.length then some (parts.getD 1 "") else none
    else none
  else none

/-- The PDF-directory collection loop of `create_sample_data` (lines
49-61): walk every entry's documents, adding each contributed directory
name to the `pdf_dirs` set. -/
def pdfDirsLoop (data : CaseRecord) : List String :=
  (data.docket_entries.getD []).foldl (fun dirs entry =>
    (entry.recap_documents.getD []).foldl (fun dirs2 doc =>
      match docContrib doc with
      | some d => insertDir dirs2 d
      | none => dirs2) dirs) []

/-- The PDF-copying decisions of `create_sample_data` (lines 28-77):
for each selected case `(summary, record)` in order, PDF directories
are resolved and copied exactly when `i == 0 and
case['available_docs'] > 10`; the copied set is `pdfDirsLoop` of the
record re-read from the summary's file path. -/
def materializePdfCopies (cases : List (CaseSummary × CaseRecord)) : List (Nat × List String) :=
  cases.enum.foldl (fun acc ic =>
    if ic.1 == 0 && decide (10 < ic.2.1.available_docs) then
      acc ++ [(ic.1, pdfDirsLoop ic.2.2)]
    else acc) []

/-- Modelled from the claim's words, for comparison with
`materializePdfCopies`: PDF directories are copied for exactly the
first entry in the result whose `available_docs > 10`, and for no other
entry. -/
def claimPdfCopies (cases : List (CaseSummary × CaseRecord)) : List (Nat × List String) :=
  match cases.enum.find? (fun ic => decide (10 < ic.2.1.available_docs)) with
  | some ic => [(ic.1, pdfDirsLoop ic.2.2)]
  | none => []

/-! Concrete inputs used by witnesses and counterexamples. -/

/-- A record with two recap documents, one available with a local path
and one whose path is empty. -/
def exRecord : CaseRecord :=
  { id := some 12345
    case_name := some "Doe v. Roe"
    case_name_short := some "Doe"
    court := some "cacd"
    date_filed := some "2014-01-02"
    date_terminated := none
    pacer_case_id := some "560539"
    docket_entries := some
      [⟨some [⟨some true, some "recap/gov.uscourts.cacd.560539/doc.1.pdf"⟩,
              ⟨some true, some ""⟩]⟩] }

/-- A well-formed input file carrying `exRecord`. -/
def exFile : InputFile := ⟨"docket-data/12345.json", 150000, .ok exRecord⟩

/-- The summary `analyze_json_file` extracts from `exFile`. -/
def exSummary : CaseSummary :=
  { id := some 12345, case_name := "Doe v. Roe", case_name_short := "Doe"
    court := "cacd", date_filed := some "2014-01-02", date_terminated := none
    file_size := 150000, total_docs := 2, available_docs := 1
    pacer_case_id := some "560539", filepath := "docket-data/12345.json" }

/-- An unreadable/malformed input file: `json.load` raises. -/
def exBadFile : InputFile := ⟨"docket-data/broken.json", 10, .error "Expecting value"⟩

/-- A record that parses but has no `docket_entries` key at all. -/
def exEmptyRecord : CaseRecord :=
  { id := some 7, case_name := none, case_name_short := none, court := none
    date_filed := none, date_terminated := none, pacer_case_id := none
    docket_entries := none }

/-- Input file carrying `exEmptyRecord`. -/
def exEmptyFile : InputFile := ⟨"docket-data/7.json", 200000, .ok exEmptyRecord⟩

/-- An eligible summary for a given court and available-doc count. -/
def mkSummary (court : String) (avail : Nat) : CaseSummary :=
  { id := some 1, case_name := "N", case_name_short := "N", court := court
    date_filed := none, date_terminated := none, file_size := 150000
    total_docs := avail, available_docs := avail, pacer_case_id := none
    filepath := "p.json" }

/-- A pool with two distinct courts, used by the selection witnesses. -/
def exPool : List CaseSummary :=
  [mkSummary "A" 20, mkSummary "A" 15, mkSummary "B" 10]

/-- A pool holding the same summary twice: in Python, two distinct dict
objects with identical contents. -/
def exDupPool : List CaseSummary :=
  [mkSummary "A" 20, mkSummary "A" 20]

/-- A selection whose first entry has 3 available documents and whose
second entry has 12, paired with their records. -/
def exLowFirst : List (CaseSummary × CaseRecord) :=
  [(mkSummary "A" 3, exRecord), (mkSummary "B" 12, exRecord)]

/-! Lemmas about the document-counting loop. -/

/-- Pointwise reading of the line-31 test. -/
theorem docCounted_iff (doc : RecapDocument) :
    docCounted doc = true ↔
      doc.is_available = some true ∧ ∃ s, doc.filepath_local = some s ∧ s ≠ "" := by
  obtain ⟨a, p⟩ := doc
  cases a with
  | none => simp [docCounted, truthyBool]
  | some b =>
    cases b <;> cases p <;>
      simp [docCounted, truthyBool, truthyStr]

/-- The claim-side counting predicate agrees with the code's test. -/
theorem filter_docCounted_eq (l : List RecapDocument) :
    l.filter (fun d => decide (d.is_available = some true ∧
        d.filepath_local ≠ none ∧ d.filepath_local ≠ some "")) = l.filter docCounted := by
  apply List.filter_congr
  intro d _
  obtain ⟨a, p⟩ := d
  cases a with
  | none => simp [docCounted, truthyBool]
  | some b => cases b <;> cases p <;> simp [docCounted, truthyBool, truthyStr, bne, beq_eq_decide]

/-- The inner fold of `countDocsLoop` counts every document into the
first component and the `docCounted` ones into the second. -/
theorem countDocs_inner (docs : List RecapDocument) (acc : Nat × Nat) :
    docs.foldl (fun acc2 doc =>
        (acc2.1 + 1, if docCounted doc then acc2.2 + 1 else acc2.2)) acc
      = (acc.1 + docs.length, acc.2 + (docs.filter docCounted).length) := by
  induction docs generalizing acc with
  | nil => simp
  | cons d rest ih =>
    by_cases h : docCounted d = true <;>
      simp [List.filter_cons, h, ih] <;> omega

/-- The outer fold of `countDocsLoop` over the docket entries. -/
theorem countDocs_outer (entries : List DocketEntry) (acc : Nat × Nat) :
    entries.foldl (fun acc entry =>
        match entry.recap_documents with
        | none => acc
        | some docs =>
          docs.foldl (fun acc2 doc =>
            (acc2.1 + 1, if docCounted doc then acc2.2 + 1 else acc2.2)) acc) acc
      = (acc.1 + (allRecapDocsAux entries).length,
         acc.2 + ((allRecapDocsAux entries).filter docCounted).length) := by
  induction entries generalizing acc with
  | nil => simp [allRecapDocsAux]
  | cons e rest ih =>
    cases h : e.recap_documents with
    | none => simp [allRecapDocsAux, h, ih]
    | some docs =>
      simp only [List.foldl_cons, h, allRecapDocsAux]
      rw [countDocs_inner, ih]
      simp [List.filter_append, Prod.mk.injEq, List.length_append]
      constructor <;> omega

/-- `countDocsLoop` computes the length of the document list and of its
`docCounted` sublist. -/
theorem countDocsLoop_eq (data : CaseRecord) :
    countDocsLoop data =
      ((allRecapDocs data).length, ((allRecapDocs data).filter docCounted).length) := by
  cases h : data.docket_entries with
  | none => simp [countDocsLoop, allRecapDocs, h, allRecapDocsAux]
  | some entries => simp [countDocsLoop, allRecapDocs, h, countDocs_outer]

/-- If no entry has a `recap_documents` key, there are no documents. -/
theorem allRecapDocsAux_eq_nil (entries : List DocketEntry)
    (h : ∀ e ∈ entries, e.recap_documents = none) : allRecapDocsAux entries = [] := by
  induction entries with
  | nil => rfl
  | cons e rest ih =>
    have he := h e (by simp)
    simp [allRecapDocsAux, he, ih fun x hx => h x (by simp [hx])]

/-! Lemmas about the two selection passes. -/

/-- The diversify pass never drops an already-selected case. -/
theorem diversify_mem_mono (N : Nat) (l : List CaseSummary) :
    ∀ (sel : List CaseSummary) (courts : List String) (x : CaseSummary),
      x ∈ sel → x ∈ diversifyPass N l sel courts := by
  induction l with
  | nil => intro sel courts x hx; simpa [diversifyPass] using hx
  | cons c rest ih =>
    intro sel courts x hx
    rw [diversifyPass]
    split
    · exact ih _ _ x (by simp [hx])
    · exact ih _ _ x hx

/-- Everything the diversify pass returns came from the initial
selection or from the walked list. -/
theorem diversify_subset (N : Nat) (l : List CaseSummary) :
    ∀ sel courts x, x ∈ diversifyPass N l sel courts → x ∈ sel ∨ x ∈ l := by
  induction l with
  | nil => intro sel courts x hx; simp [diversifyPass] at hx; exact Or.inl hx
  | cons c rest ih =>
    intro sel courts x hx
    rw [diversifyPass] at hx
    split at hx
    · rcases ih _ _ x hx with h | h
      · rcases List.mem_append.1 h with h' | h'
        · exact Or.inl h'
        · simp at h'; subst h'; simp
      · simp [h]
    · rcases ih _ _ x hx with h | h
      · exact Or.inl h
      · simp [h]

/-- The diversify pass only grows the selection. -/
theorem diversify_length_mono (N : Nat) (l : List CaseSummary) :
    ∀ sel courts, sel.length ≤ (diversifyPass N l sel courts).length := by
  induction l with
  | nil => intro sel courts; simp [diversifyPass]
  | cons c rest ih =>
    intro sel courts
    rw [diversifyPass]
    split
    · calc sel.length ≤ (sel ++ [c]).length := by simp
        _ ≤ _ := ih _ _
    · exact ih _ _

/-- The diversify pass respects the target count. -/
theorem diversify_length_le (N : Nat) (l : List CaseSummary) :
    ∀ sel courts, sel.length ≤ N → (diversifyPass N l sel courts).length ≤ N := by
  induction l with
  | nil => intro sel courts h; simpa [diversifyPass] using h
  | cons c rest ih =>
    intro sel courts h
    rw [diversifyPass]
    split
    · next hc => exact ih _ _ (by simpa using hc.2)
    · exact ih _ _ h

/-- The diversify pass keeps the selected courts pairwise distinct, as
long as `courts_seen` covers the courts already selected. -/
theorem diversify_nodup_courts (N : Nat) (l : List CaseSummary) :
    ∀ sel courts, (sel.map (·.court)).Nodup →
      (∀ s ∈ sel.map (·.court), s ∈ courts) →
      ((diversifyPass N l sel courts).map (·.court)).Nodup := by
  induction l with
  | nil => intro sel courts h _; simpa [diversifyPass] using h
  | cons c rest ih =>
    intro sel courts hnd hsub
    rw [diversifyPass]
    split
    · next hc =>
      apply ih
      · rw [List.map_append]
        rw [List.nodup_append]
        refine ⟨hnd, by simp, ?_⟩
        intro a ha
        simp only [List.map_cons, List.map_nil, List.mem_singleton]
        intro hac
        exact hc.1 (hac ▸ hsub a ha)
      · intro s hs
        rw [List.map_append] at hs
        rcases List.mem_append.1 hs with h | h
        · exact List.mem_cons_of_mem _ (hsub s h)
        · simp at h; simp [h]
    · exact ih _ _ hnd hsub

/-- If the diversify pass ends below the target count, every court of
the walked list was seen: it is in `courts_seen` or among the selected
courts. -/
theorem diversify_covers (N : Nat) (l : List CaseSummary) :
    ∀ sel courts, (diversifyPass N l sel courts).length < N →
      ∀ x ∈ l, x.court ∈ courts ∨
        x.court ∈ (diversifyPass N l sel courts).map (·.court) := by
  induction l with
  | nil => intro sel courts _ x hx; simp at hx
  | cons c rest ih =>
    intro sel courts hlen x hx
    rw [diversifyPass] at hlen ⊢
    by_cases hc : c.court ∉ courts ∧ sel.length < N
    · rw [if_pos hc] at hlen ⊢
      rcases List.mem_cons.1 hx with rfl | hx'
      · right
        exact List.mem_map.2 ⟨x, diversify_mem_mono N rest _ _ x (by simp), rfl⟩
      · rcases ih _ _ hlen x hx' with h | h
        · rcases List.mem_cons.1 h with hcc | hcourts
          · right
            rw [hcc]
            exact List.mem_map.2 ⟨c, diversify_mem_mono N rest _ _ c (by simp), rfl⟩
          · exact Or.inl hcourts
        · exact Or.inr h
    · rw [if_neg hc] at hlen ⊢
      push_neg at hc
      rcases List.mem_cons.1 hx with rfl | hx'
      · by_cases hcc : x.court ∈ courts
        · exact Or.inl hcc
        · exfalso
          have hmono := diversify_length_mono N rest sel courts
          have hN := hc hcc
          omega
      · exact ih _ _ hlen x hx'

/-- The fill pass never drops an already-selected case. -/
theorem fill_mem_mono (N : Nat) (l : List CaseSummary) :
    ∀ sel x, x ∈ sel → x ∈ fillPass N l sel := by
  induction l with
  | nil => intro sel x hx; simpa [fillPass] using hx
  | cons c rest ih =>
    intro sel x hx
    rw [fillPass]
    split
    · exact ih _ x (by simp [hx])
    · exact ih _ x hx

/-- Everything the fill pass returns came from the initial selection or
from the walked list. -/
theorem fill_subset (N : Nat) (l : List CaseSummary) :
    ∀ sel x, x ∈ fillPass N l sel → x ∈ sel ∨ x ∈ l := by
  induction l with
  | nil => intro sel x hx; simp [fillPass] at hx; exact Or.inl hx
  | cons c rest ih =>
    intro sel x hx
    rw [fillPass] at hx
    split at hx
    · rcases ih _ x hx with h | h
      · rcases List.mem_append.1 h with h' | h'
        · exact Or.inl h'
        · simp at h'; subst h'; simp
      · simp [h]
    · rcases ih _ x hx with h | h
      · exact Or.inl h
      · simp [h]

/-- The fill pass only grows the selection. -/
theorem fill_length_mono (N : Nat) (l : List CaseSummary) :
    ∀ sel, sel.length ≤ (fillPass N l sel).length := by
  induction l with
  | nil => intro sel; simp [fillPass]
  | cons c rest ih =>
    intro sel
    rw [fillPass]
    split
    · calc sel.length ≤ (sel ++ [c]).length := by simp
        _ ≤ _ := ih _
    · exact ih _

/-- The fill pass respects the target count. -/
theorem fill_length_le (N : Nat) (l : List CaseSummary) :
    ∀ sel, sel.length ≤ N → (fillPass N l sel).length ≤ N := by
  induction l with
  | nil => intro sel h; simpa [fillPass] using h
  | cons c rest ih =>
    intro sel h
    rw [fillPass]
    split
    · next hc => exact ih _ (by simpa using hc.2)
    · exact ih _ h

/-- The fill pass preserves freedom from duplicates (it appends only
cases that are `not in selected`). -/
theorem fill_nodup (N : Nat) (l : List CaseSummary) :
    ∀ sel, sel.Nodup → (fillPass N l sel).Nodup := by
  induction l with
  | nil => intro sel h; simpa [fillPass] using h
  | cons c rest ih =>
    intro sel h
    rw [fillPass]
    split
    · next hc =>
      apply ih
      rw [List.nodup_append]
      exact ⟨h, by simp, by simpa [List.disjoint_singleton] using hc.1⟩
    · exact ih _ h

/-- A selection already at the target count passes through the fill
pass unchanged. -/
theorem fill_of_full (N : Nat) (l : List CaseSummary) :
    ∀ sel, N ≤ sel.length → fillPass N l sel = sel := by
  induction l with
  | nil => intro sel _; rw [fillPass]
  | cons c rest ih =>
    intro sel h
    rw [fillPass, if_neg (by rintro ⟨-, h2⟩; omega)]
    exact ih _ h

/-- If the fill pass ends below the target count, it has swallowed the
whole walked list. -/
theorem fill_covers (N : Nat) (l : List CaseSummary) :
    ∀ sel, (fillPass N l sel).length < N → ∀ x ∈ l, x ∈ fillPass N l sel := by
  induction l with
  | nil => intro sel _ x hx; simp at hx
  | cons c rest ih =>
    intro sel hlen x hx
    rw [fillPass] at hlen ⊢
    by_cases hc : c ∉ sel ∧ sel.length < N
    · rw [if_pos hc] at hlen ⊢
      rcases List.mem_cons.1 hx with rfl | hx'
      · exact fill_mem_mono N rest _ x (by simp)
      · exact ih _ hlen x hx'
    · rw [if_neg hc] at hlen ⊢
      push_neg at hc
      rcases List.mem_cons.1 hx with rfl | hx'
      · by_cases hcs : x ∈ sel
        · exact fill_mem_mono N rest _ x hcs
        · exfalso
          have hmono := fill_length_mono N rest sel
          have hN := hc hcs
          omega
      · exact ih _ hlen x hx'

/-- Core of C2: on any ranked list with at least `N` distinct courts,
the diversify-then-fill selection has pairwise distinct courts. -/
theorem select_core_diversity (N : Nat) (ranked : List CaseSummary)
    (hN : N ≤ distinctCourts ranked) :
    (((fillPass N ranked (diversifyPass N ranked [] [])).take N).map (·.court)).Nodup := by
  have hS1le : (diversifyPass N ranked [] []).length ≤ N :=
    diversify_length_le N ranked [] [] (by simp)
  have hS1len : (diversifyPass N ranked [] []).length = N := by
    rcases Nat.lt_or_ge (diversifyPass N ranked [] []).length N with hlt | hge
    · exfalso
      have hcov := diversify_covers N ranked [] [] hlt
      have hsub : ∀ s ∈ ranked.map (·.court),
          s ∈ (diversifyPass N ranked [] []).map (·.court) := by
        intro s hs
        rcases List.mem_map.1 hs with ⟨x, hxR, rfl⟩
        rcases hcov x hxR with h | h
        · simp at h
        · exact h
      have h1 : (ranked.map (·.court)).toFinset ⊆
          ((diversifyPass N ranked [] []).map (·.court)).toFinset := by
        intro s hs
        exact List.mem_toFinset.2 (hsub s (List.mem_toFinset.1 hs))
      have h2 : distinctCourts ranked ≤ (diversifyPass N ranked [] []).length := by
        calc distinctCourts ranked
            = (ranked.map (·.court)).toFinset.card := (List.card_toFinset _).symm
          _ ≤ ((diversifyPass N ranked [] []).map (·.court)).toFinset.card :=
              Finset.card_le_card h1
          _ ≤ ((diversifyPass N ranked [] []).map (·.court)).length :=
              List.toFinset_card_le _
          _ = (diversifyPass N ranked [] []).length := List.length_map _ _
      omega
    · omega
  rw [fill_of_full N ranked _ (by omega), List.take_of_length_le (by omega)]
  exact diversify_nodup_courts N ranked [] [] (by simp) (by simp)

/-- Core of C3: the diversify-then-fill selection on any ranked list
has length `min N (number of distinct summaries)`, draws only from the
list, and holds no duplicates. -/
theorem select_core_fill (N : Nat) (ranked : List CaseSummary) :
    ((fillPass N ranked (diversifyPass N ranked [] [])).take N).length
        = min N ranked.dedup.length ∧
    (∀ c ∈ (fillPass N ranked (diversifyPass N ranked [] [])).take N, c ∈ ranked) ∧
    ((fillPass N ranked (diversifyPass N ranked [] [])).take N).Nodup := by
  have hS1nodupc : ((diversifyPass N ranked [] []).map (·.court)).Nodup :=
    diversify_nodup_courts N ranked [] [] (by simp) (by simp)
  have hS1nodup : (diversifyPass N ranked [] []).Nodup :=
    List.Nodup.of_map _ hS1nodupc
  have hS2nodup : (fillPass N ranked (diversifyPass N ranked [] [])).Nodup :=
    fill_nodup N ranked _ hS1nodup
  have hS2sub : ∀ x ∈ fillPass N ranked (diversifyPass N ranked [] []), x ∈ ranked := by
    intro x hx
    rcases fill_subset N ranked _ x hx with h | h
    · rcases diversify_subset N ranked [] [] x h with h' | h'
      · simp at h'
      · exact h'
    · exact h
  have hS1le : (diversifyPass N ranked [] []).length ≤ N :=
    diversify_length_le N ranked [] [] (by simp)
  have hS2le : (fillPass N ranked (diversifyPass N ranked [] [])).length ≤ N :=
    fill_length_le N ranked _ hS1le
  have htake : (fillPass N ranked (diversifyPass N ranked [] [])).take N
      = fillPass N ranked (diversifyPass N ranked [] []) :=
    List.take_of_length_le hS2le
  have hcard2 : (fillPass N ranked (diversifyPass N ranked [] [])).toFinset.card
      = (fillPass N ranked (diversifyPass N ranked [] [])).length :=
    List.toFinset_card_of_nodup hS2nodup
  have hlen : (fillPass N ranked (diversifyPass N ranked [] [])).length
      = min N ranked.dedup.length := by
    rcases Nat.lt_or_ge (fillPass N ranked (diversifyPass N ranked [] [])).length N
      with hlt | hge
    · have hcov := fill_covers N ranked _ hlt
      have heq : (fillPass N ranked (diversifyPass N ranked [] [])).toFinset
          = ranked.toFinset := by
        apply Finset.Subset.antisymm
        · intro x hx; exact List.mem_toFinset.2 (hS2sub x (List.mem_toFinset.1 hx))
        · intro x hx; exact List.mem_toFinset.2 (hcov x (List.mem_toFinset.1 hx))
      have hdl : (fillPass N ranked (diversifyPass N ranked [] [])).length
          = ranked.dedup.length := by
        rw [← hcard2, heq, List.card_toFinset]
      omega
    · have hsubF : (fillPass N ranked (diversifyPass N ranked [] [])).toFinset
          ⊆ ranked.toFinset := by
        intro x hx; exact List.mem_toFinset.2 (hS2sub x (List.mem_toFinset.1 hx))
      have hdl : (fillPass N ranked (diversifyPass N ranked [] [])).length
          ≤ ranked.dedup.length := by
        rw [← hcard2, ← List.card_toFinset ranked]
        exact Finset.card_le_card hsubF
      omega
  refine ⟨by rw [htake, hlen], ?_, by rw [htake]; exact hS2nodup⟩
  intro c hc
  rw [htake] at hc
  exact hS2sub c hc

/-! Claim theorems. -/

/-- C1: a summary survives the filter stage iff its `available_docs`
lies in `[5, 50]` and its `file_size` lies in `[100000, 1000000]`, all
bounds inclusive. -/
theorem filter_stage_eligibility (analyzed : List CaseSummary) (c : CaseSummary) :
    c ∈ analyzed.filter eligible ↔
      c ∈ analyzed ∧ (5 ≤ c.available_docs ∧ c.available_docs ≤ 50 ∧
        100000 ≤ c.file_size ∧ c.file_size ≤ 1000000) := by
  simp [List.mem_filter, eligible, and_assoc]

/-- C4: a recap document is counted in `available_docs` iff its
availability flag is `true` and its local path is a present, non-empty
string; `available_docs` is exactly the number of such documents. -/
theorem availability_counting (data : CaseRecord) (doc : RecapDocument) :
    (docCounted doc = true ↔
      doc.is_available = some true ∧ ∃ s, doc.filepath_local = some s ∧ s ≠ "") ∧
    (countDocsLoop data).2 =
      ((allRecapDocs data).filter (fun d => decide (d.is_available = some true ∧
        d.filepath_local ≠ none ∧ d.filepath_local ≠ some ""))).length := by
  refine ⟨docCounted_iff doc, ?_⟩
  rw [countDocsLoop_eq, filter_docCounted_eq]

/-- C5: every summary the extractor produces satisfies
`0 ≤ available_docs ≤ total_docs`. -/
theorem extractor_count_invariant (file : InputFile) (s : CaseSummary)
    (log : List String) (h : analyze_json_file file = (some s, log)) :
    0 ≤ s.available_docs ∧ s.available_docs ≤ s.total_docs := by
  cases hp : file.parsed with
  | error e => simp [analyze_json_file, hp] at h
  | ok data =>
    simp [analyze_json_file, hp] at h
    obtain ⟨hs, -⟩ := h
    have hc := countDocsLoop_eq data
    constructor
    · exact Nat.zero_le _
    · rw [← hs]
      simp only [hc]
      exact List.length_filter_le _ _

/-- Witness for C5 at a concrete input file. -/
theorem extractor_count_invariant_witness :
    0 ≤ exSummary.available_docs ∧ exSummary.available_docs ≤ exSummary.total_docs :=
  extractor_count_invariant exFile exSummary [] (by rfl)

/-- C6: the lines of `sample_ids.txt` are exactly the rendered `id`
fields of the JSON array in `selected_samples.json`, in the same
order. -/
theorem output_round_trip (samples : List CaseSummary) :
    sampleIdsLines samples = (jsonIds samples).map sampleIdsLines.reprId := by
  suffices h : ∀ (l : List CaseSummary) (acc : List String),
      l.foldl (fun acc c => acc ++ [sampleIdsLines.reprId c.id]) acc
        = acc ++ (l.map (·.id)).map sampleIdsLines.reprId by
    simpa [sampleIdsLines, jsonIds] using h samples []
  intro l
  induction l with
  | nil => simp
  | cons c rest ih => simp [ih]

/-- C8: a file whose read or parse raises is turned into `None` with a
log line containing the offending path, and the analysis loop of the
selector produces the same working set as if the file were absent. -/
theorem extraction_failure_handling (pre post : List InputFile) (bad : InputFile)
    (e : String) (h : bad.parsed = .error e) :
    (analyze_json_file bad).1 = none ∧
    (∃ msg ∈ (analyze_json_file bad).2, ∃ a b, msg = a ++ bad.path ++ b) ∧
    analyzeFiles (pre ++ bad :: post) = analyzeFiles (pre ++ post) := by
  refine ⟨by simp [analyze_json_file, h], ?_, ?_⟩
  · exact ⟨"Error analyzing " ++ bad.path ++ ": " ++ e,
      by simp [analyze_json_file, h],
      "Error analyzing ", ": " ++ e, by simp [String.append_assoc]⟩
  · unfold analyzeFiles
    rw [List.foldl_append, List.foldl_append, List.foldl_cons]
    simp [analyze_json_file, h]

/-- Witness for C8: a concrete malformed file between good files. -/
theorem extraction_failure_handling_witness :
    (analyze_json_file exBadFile).1 = none ∧
    (∃ msg ∈ (analyze_json_file exBadFile).2, ∃ a b, msg = a ++ exBadFile.path ++ b) ∧
    analyzeFiles ([exFile] ++ exBadFile :: [exEmptyFile]) = analyzeFiles ([exFile] ++ [exEmptyFile]) :=
  extraction_failure_handling [exFile] [exEmptyFile] exBadFile "Expecting value" (by rfl)

/-- C9: a record that parses but has no `docket_entries` field, or all
of whose entries lack `recap_documents`, still yields a summary, with
both counts zero, and that summary is never eligible. -/
theorem missing_entries_extraction (file : InputFile) (data : CaseRecord)
    (hp : file.parsed = .ok data)
    (hd : data.docket_entries = none ∨
      ∀ e ∈ data.docket_entries.getD [], e.recap_documents = none) :
    ∃ s, (analyze_json_file file).1 = some s ∧
      s.total_docs = 0 ∧ s.available_docs = 0 ∧ eligible s = false := by
  have hnil : allRecapDocs data = [] := by
    cases hd with
    | inl h => simp [allRecapDocs, h, allRecapDocsAux]
    | inr h => simp [allRecapDocs, allRecapDocsAux_eq_nil _ h]
  have hc : countDocsLoop data = (0, 0) := by
    rw [countDocsLoop_eq, hnil]; rfl
  refine ⟨⟨data.id, data.case_name.getD "Unknown", data.case_name_short.getD "Unknown",
    data.court.getD "Unknown", data.date_filed, data.date_terminated, file.size,
    (countDocsLoop data).1, (countDocsLoop data).2, data.pacer_case_id, file.path⟩,
    ?_, ?_, ?_, ?_⟩
  · simp [analyze_json_file, hp]
  · simp [hc]
  · simp [hc]
  · simp [eligible, hc]

/-- Witness for C9 at a record with no `docket_entries` key. -/
theorem missing_entries_extraction_witness :
    ∃ s, (analyze_json_file exEmptyFile).1 = some s ∧
      s.total_docs = 0 ∧ s.available_docs = 0 ∧ eligible s = false :=
  missing_entries_extraction exEmptyFile exEmptyRecord (by rfl) (Or.inl (by rfl))

/-! Lemmas about the materializer's PDF-directory collection. -/

/-- Membership in the modelled `set.add`. -/
theorem insertDir_mem (dirs : List String) (d x : String) :
    x ∈ insertDir dirs d ↔ x ∈ dirs ∨ x = d := by
  by_cases h : d ∈ dirs
  · rw [insertDir, if_pos h]
    constructor
    · exact Or.inl
    · rintro (hx | rfl)
      · exact hx
      · exact h
  · rw [insertDir, if_neg h]
    simp

/-- The modelled `set.add` keeps the list duplicate-free. -/
theorem insertDir_nodup (dirs : List String) (d : String) (h : dirs.Nodup) :
    (insertDir dirs d).Nodup := by
  by_cases hd : d ∈ dirs
  · rw [insertDir, if_pos hd]; exact h
  · rw [insertDir, if_neg hd, List.nodup_append]
    exact ⟨h, by simp, by simpa [List.disjoint_singleton] using hd⟩

/-- Membership after the inner document walk of `pdfDirsLoop`. -/
theorem pdfDirs_inner_mem (docs : List RecapDocument) :
    ∀ (dirs : List String) (x : String),
      (x ∈ docs.foldl (fun dirs2 doc =>
        match docContrib doc with
        | some d => insertDir dirs2 d
        | none => dirs2) dirs) ↔ x ∈ dirs ∨ ∃ doc ∈ docs, docContrib doc = some x := by
  induction docs with
  | nil => simp
  | cons doc rest ih =>
    intro dirs x
    rw [List.foldl_cons]
    cases hcd : docContrib doc with
    | none =>
      simp only [hcd]
      rw [ih]
      simp [hcd]
    | some d =>
      simp only [hcd]
      rw [ih, insertDir_mem]
      simp only [List.mem_cons]
      constructor
      · rintro ((hx | rfl) | ⟨doc2, h2, h3⟩)
        · exact Or.inl hx
        · exact Or.inr ⟨doc, Or.inl rfl, hcd⟩
        · exact Or.inr ⟨doc2, Or.inr h2, h3⟩
      · rintro (hx | ⟨doc2, (rfl | h2), h3⟩)
        · exact Or.inl (Or.inl hx)
        · rw [hcd] at h3
          exact Or.inl (Or.inr (Option.some_injective _ h3).symm)
        · exact Or.inr ⟨doc2, h2, h3⟩

/-- The inner document walk keeps the directory list duplicate-free. -/
theorem pdfDirs_inner_nodup (docs : List RecapDocument) :
    ∀ dirs : List String, dirs.Nodup →
      (docs.foldl (fun dirs2 doc =>
        match docContrib doc with
        | some d => insertDir dirs2 d
        | none => dirs2) dirs).Nodup := by
  induction docs with
  | nil => intro dirs h; simpa using h
  | cons doc rest ih =>
    intro dirs h
    rw [List.foldl_cons]
    cases hcd : docContrib doc with
    | none => simp only [hcd]; exact ih _ h
    | some d => simp only [hcd]; exact ih _ (insertDir_nodup _ _ h)

/-- Membership after the full entry walk of `pdfDirsLoop`. -/
theorem pdfDirs_outer_mem (entries : List DocketEntry) :
    ∀ (dirs : List String) (x : String),
      (x ∈ entries.foldl (fun dirs entry =>
        (entry.recap_documents.getD []).foldl (fun dirs2 doc =>
          match docContrib doc with
          | some d => insertDir dirs2 d
          | none => dirs2) dirs) dirs) ↔
      x ∈ dirs ∨ ∃ doc ∈ allRecapDocsAux entries, docContrib doc = some x := by
  induction entries with
  | nil => simp [allRecapDocsAux]
  | cons e rest ih =>
    intro dirs x
    rw [List.foldl_cons, ih, pdfDirs_inner_mem]
    simp only [allRecapDocsAux, List.mem_append]
    constructor
    · rintro ((hx | ⟨doc, h1, h2⟩) | ⟨doc, h1, h2⟩)
      · exact Or.inl hx
      · exact Or.inr ⟨doc, Or.inl h1, h2⟩
      · exact Or.inr ⟨doc, Or.inr h1, h2⟩
    · rintro (hx | ⟨doc, (h1 | h1), h2⟩)
      · exact Or.inl (Or.inl hx)
      · exact Or.inl (Or.inr ⟨doc, h1, h2⟩)
      · exact Or.inr ⟨doc, h1, h2⟩

/-- The full entry walk keeps the directory list duplicate-free. -/
theorem pdfDirs_outer_nodup (entries : List DocketEntry) :
    ∀ dirs : List String, dirs.Nodup →
      (entries.foldl (fun dirs entry =>
        (entry.recap_documents.getD []).foldl (fun dirs2 doc =>
          match docContrib doc with
          | some d => insertDir dirs2 d
          | none => dirs2) dirs) dirs).Nodup := by
  induction entries with
  | nil => intro dirs h; simpa using h
  | cons e rest ih =>
    intro dirs h
    rw [List.foldl_cons]
    exact ih _ (pdfDirs_inner_nodup _ _ h)

/-- Membership in the collected directory set. -/
theorem pdfDirsLoop_mem (data : CaseRecord) (x : String) :
    x ∈ pdfDirsLoop data ↔ ∃ doc ∈ allRecapDocs data, docContrib doc = some x := by
  rw [pdfDirsLoop, pdfDirs_outer_mem]
  simp [allRecapDocs]

/-- The collected directory set is duplicate-free. -/
theorem pdfDirsLoop_nodup (data : CaseRecord) : (pdfDirsLoop data).Nodup := by
  rw [pdfDirsLoop]
  exact pdfDirs_outer_nodup _ _ (by simp)

/-- A document contributes a directory iff it is available with a
non-`None` path starting with `recap/` that splits into at least three
segments; the contribution is the second segment. -/
theorem docContrib_eq_some (doc : RecapDocument) (d : String) :
    docContrib doc = some d ↔
      doc.is_available = some true ∧ ∃ p, doc.filepath_local = some p ∧
        p.startsWith "recap/" = true ∧ 3 ≤ (p.splitOn "/").length ∧
        (p.splitOn "/").getD 1 "" = d := by
  obtain ⟨a, pl⟩ := doc
  cases a with
  | none => simp [docContrib, truthyBool]
  | some b =>
    cases b with
    | false => simp [docContrib, truthyBool]
    | true =>
      cases pl with
      | none => simp [docContrib, truthyBool, truthyStr]
      | some p =>
        by_cases hp : p = ""
        · subst hp
          have h0 : ("".startsWith "recap/") = false := by decide
          simp [docContrib, truthyBool, truthyStr, h0]
        · by_cases hs : p.startsWith "recap/"
          · by_cases hl : 3 ≤ (p.splitOn "/").length
            · simp [docContrib, truthyBool, truthyStr, hp, hs, hl, bne, beq_eq_decide]
            · simp [docContrib, truthyBool, truthyStr, hp, hs, hl, bne, beq_eq_decide]
          · simp [docContrib, truthyBool, truthyStr, hp, hs, bne, beq_eq_decide]

/-- Indices 1 and beyond never trigger the PDF copy (`i == 0` fails). -/
theorem materialize_tail_none (l : List (CaseSummary × CaseRecord)) :
    ∀ (n : Nat) (acc : List (Nat × List String)),
      (l.enumFrom (n + 1)).foldl (fun acc ic =>
        if ic.1 == 0 && decide (10 < ic.2.1.available_docs) then
          acc ++ [(ic.1, pdfDirsLoop ic.2.2)]
        else acc) acc = acc := by
  induction l with
  | nil => intro n acc; rfl
  | cons c rest ih =>
    intro n acc
    rw [List.enumFrom_cons, List.foldl_cons]
    simp only [Nat.succ_ne_zero, beq_eq_false_iff_ne, ne_eq]
    rw [if_neg (by simp)]
    exact ih (n + 1) acc

/-- C2: the selection never exceeds the target count, and whenever the
eligible pool has at least `N` distinct courts, no two selected entries
share a court code. -/
theorem selection_court_diversity (good : List CaseSummary) (N : Nat) :
    (selectSamples N good).length ≤ N ∧
    (N ≤ distinctCourts good → ((selectSamples N good).map (·.court)).Nodup) := by
  constructor
  · simp only [selectSamples]
    rw [List.length_take]
    exact min_le_left _ _
  · intro hN
    have hperm : (rankSamples good).Perm good := List.mergeSort_perm good _
    have hdc : distinctCourts (rankSamples good) = distinctCourts good := by
      unfold distinctCourts
      exact ((hperm.map (·.court)).dedup).length_eq
    simp only [selectSamples]
    exact select_core_diversity N (rankSamples good) (by omega)

/-- Witness for C2 at a pool with two distinct courts and target 2. -/
theorem selection_court_diversity_witness :
    (selectSamples 2 exPool).length ≤ 2 ∧
      ((selectSamples 2 exPool).map (·.court)).Nodup :=
  ⟨(selection_court_diversity exPool 2).1,
   (selection_court_diversity exPool 2).2 (by decide)⟩

unseal List.merge List.mergeSort in
/-- C3 counterexample: on a pool holding two summaries with identical
field contents (two distinct dict objects in Python) and target count
2, the selection has length 1, not `min 2 (pool length) = 2`: the fill
pass's `case not in selected` compares dicts by content, not by
identity, so the second copy is never appended. -/
theorem fill_stage_identity_counterexample :
    (selectSamples 2 exDupPool).length ≠ min 2 exDupPool.length := by decide

/-- C3 (amended): after the fill pass the selection has length
`min N (number of distinct-by-content summaries in the pool)`, every
selected entry comes from the pool, and no summary appears twice; the
comparison is by content, so of two pool members with identical field
contents at most one is selected. -/
theorem fill_stage_properties (good : List CaseSummary) (N : Nat) :
    (selectSamples N good).length = min N good.dedup.length ∧
    (∀ c ∈ selectSamples N good, c ∈ good) ∧
    (selectSamples N good).Nodup := by
  have hperm : (rankSamples good).Perm good := List.mergeSort_perm good _
  have hdedup : (rankSamples good).dedup.length = good.dedup.length :=
    (hperm.dedup).length_eq
  obtain ⟨h1, h2, h3⟩ := select_core_fill N (rankSamples good)
  simp only [selectSamples]
  refine ⟨by rw [h1, hdedup], ?_, h3⟩
  intro c hc
  exact hperm.mem_iff.1 (h2 c hc)

unseal List.merge List.mergeSort in
/-- Witness for C3's amended statement at a concrete pool. -/
theorem fill_stage_properties_witness :
    (selectSamples 2 exPool).length = min 2 exPool.dedup.length ∧
      mkSummary "A" 20 ∈ exPool ∧ (selectSamples 2 exPool).Nodup :=
  ⟨(fill_stage_properties exPool 2).1,
   (fill_stage_properties exPool 2).2.1 (mkSummary "A" 20) (by decide),
   (fill_stage_properties exPool 2).2.2⟩

/-- C7 counterexample: on a selection whose first entry has 3 available
documents and whose second has 12, the code copies no PDF directories
at all, while the claim as stated ("the first entry in the result whose
available_docs > 10" — here the second entry) would copy the second
entry's directories. -/
theorem materializer_trigger_counterexample :
    materializePdfCopies exLowFirst = [] ∧
      claimPdfCopies exLowFirst = [(1, pdfDirsLoop exRecord)] ∧
      materializePdfCopies exLowFirst ≠ claimPdfCopies exLowFirst := by
  refine ⟨by rfl, by rfl, by decide⟩

/-- C7 (amended): PDF directories are resolved and copied for the first
entry of the selection alone, and only when that entry has
`available_docs > 10`; for every other entry, and whenever the first
entry's count is 10 or below, nothing is copied. -/
theorem materializer_pdf_trigger (cases : List (CaseSummary × CaseRecord)) :
    materializePdfCopies cases =
      match cases.head? with
      | some cr => if 10 < cr.1.available_docs then [(0, pdfDirsLoop cr.2)] else []
      | none => [] := by
  cases cases with
  | nil => rfl
  | cons cr rest =>
    rw [materializePdfCopies, List.enum_cons, List.foldl_cons]
    by_cases h : 10 < cr.1.available_docs
    · rw [if_pos (by simp [h])]
      simpa [h] using materialize_tail_none rest 0 [(0, pdfDirsLoop cr.2)]
    · rw [if_neg (by simp [h])]
      simpa [h] using materialize_tail_none rest 0 []

/-- C10: a case directory `d` is collected by the materializer iff some
available recap document's local path starts with `recap/` and splits
on `/` into at least three segments whose second is `d`; a path failing
either shape test contributes nothing, and the collected directories
are deduplicated. -/
theorem pdf_path_resolution (data : CaseRecord) (d : String) :
    (d ∈ pdfDirsLoop data ↔
      ∃ doc ∈ allRecapDocs data, doc.is_available = some true ∧
        ∃ p, doc.filepath_local = some p ∧ p.startsWith "recap/" = true ∧
          3 ≤ (p.splitOn "/").length ∧ (p.splitOn "/").getD 1 "" = d) ∧
    (pdfDirsLoop data).Nodup := by
  refine ⟨?_, pdfDirsLoop_nodup data⟩
  rw [pdfDirsLoop_mem]
  constructor
  · rintro ⟨doc, hdoc, hc⟩
    rw [docContrib_eq_some] at hc
    exact ⟨doc, hdoc, hc.1, hc.2⟩
  · rintro ⟨doc, hdoc, h1, p, hp⟩
    exact ⟨doc, hdoc, (docContrib_eq_some doc d).2 ⟨h1, p, hp⟩⟩

end Freelaw
